import Mathlib

/-!
Verification of the trading-analysis core of the repository:
the per-coin P&L ledger (`TradeAnalyzer.calculate_pnl_by_coin` and
`TradeAnalyzer.calculate_winrate` in `filter_address.py`) and the whale
activity signal (`analyze_whale_activity` in `main.py`).

Modelling conventions:
- Python float/decimal arithmetic over prices and sizes is modelled with `ℚ`.
- A raw trade record (a JSON dict) is modelled by `RawTrade` with `Option`
  fields for the `dict.get` accesses.
- `float(x)` applied to a field value is modelled by `PyVal`: a value on
  which `float` succeeds carries its numeric result, any other value makes
  `float` raise; a missing field goes through `trade.get(key, 0)` and thus
  parses to `0`.
- An uncaught Python exception is an `Except.error ()` of the whole batch.
-/

/-- Value found in a raw trade field: either one that `float()` converts
successfully (numeric strings and numbers), or one on which `float()`
raises (`bad`), such as a non-numeric string or `None`. -/
inductive PyVal where
  | num : ℚ → PyVal
  | bad : PyVal
deriving DecidableEq, Repr

/-- Model of `float(trade.get(key, 0))`: a missing field defaults to `0`,
a numeric value converts, anything else raises (returns `none`). -/
def pyFloat : Option PyVal → Option ℚ
  | none => some 0
  | some (.num q) => some q
  | some .bad => none

/-- One raw fill record as handed to `calculate_pnl_by_coin`:
fields read with `trade.get` are optional. -/
structure RawTrade where
  coin : Option String
  side : Option String
  px : Option PyVal
  sz : Option PyVal
deriving DecidableEq, Repr

/-- Python truthiness of an optional string: `not coin` is true exactly
when the field is missing (`None`) or the empty string. -/
def truthy : Option String → Bool
  | none => false
  | some s => s != ""

/-- Per-coin position state, the value of the `positions` defaultdict in
`calculate_pnl_by_coin`. -/
structure PosState where
  position : ℚ
  total_cost : ℚ
  realized_pnl : ℚ
  trades_count : ℕ
  winning_trades : ℕ
  losing_trades : ℕ
deriving DecidableEq, Repr

/-- Initial per-coin state of the defaultdict: all fields zero. -/
def initState : PosState :=
  { position := 0, total_cost := 0, realized_pnl := 0,
    trades_count := 0, winning_trades := 0, losing_trades := 0 }

/-- The `positions` defaultdict: the list of keys in insertion order plus
the stored value for each key (`initState` for keys never inserted). -/
structure PnlDict where
  keys : List String
  val : String → PosState

/-- The empty defaultdict. -/
def emptyDict : PnlDict := { keys := [], val := fun _ => initState }

/-- Key insertion of `positions[coin]`: a defaultdict creates the entry on
first access, preserving insertion order. -/
def insertKey (ks : List String) (c : String) : List String :=
  if c ∈ ks then ks else ks ++ [c]

/-- Pointwise update of the dictionary's stored function at one key. -/
def updateF (f : String → PosState) (c : String) (v : PosState) :
    String → PosState :=
  fun x => if x = c then v else f x

/-- Body of the per-fill update of `calculate_pnl_by_coin` on one coin's
state, after the fill passed the `not coin or not side` check:
increment `trades_count`; on side `'B'` add `px*sz` to cost and `sz` to
position; on side `'A'` with positive position realize
`(px - avg_cost) * min(sz, position)`, classify win/loss, reduce cost and
position, and clamp both to zero if the position would go negative; any
other side only counts the trade. -/
def applyFill (pos : PosState) (side : String) (px sz : ℚ) : PosState :=
  let pos1 := { pos with trades_count := pos.trades_count + 1 }
  if side = "B" then
    { pos1 with total_cost := pos1.total_cost + px * sz,
                position := pos1.position + sz }
  else if side = "A" then
    if 0 < pos1.position then
      let avg_cost := pos1.total_cost / pos1.position
      let matched := min sz pos1.position
      let pnl := (px - avg_cost) * matched
      let pos2 := { pos1 with
        realized_pnl := pos1.realized_pnl + pnl,
        winning_trades := if 0 < pnl then pos1.winning_trades + 1
                          else pos1.winning_trades,
        losing_trades := if pnl < 0 then pos1.losing_trades + 1
                         else pos1.losing_trades }
      let new_cost := pos2.total_cost - avg_cost * matched
      let new_pos := pos2.position - sz
      if new_pos < 0 then { pos2 with position := 0, total_cost := 0 }
      else { pos2 with position := new_pos, total_cost := new_cost }
    else pos1
  else pos1

/-- One iteration of the `for trade in trades` loop: parse `px` and `sz`
(raising fails the batch), skip the fill when `coin` or `side` is missing
or empty, otherwise access `positions[coin]` and update it. -/
def processTrade (d : PnlDict) (t : RawTrade) : Except Unit PnlDict :=
  match pyFloat t.px, pyFloat t.sz with
  | some px, some sz =>
    if truthy t.coin && truthy t.side then
      let c := t.coin.getD ""
      .ok { keys := insertKey d.keys c,
            val := updateF d.val c
                     (applyFill (d.val c) (t.side.getD "") px sz) }
    else
      .ok d
  | _, _ => .error ()

/-- The whole loop of `calculate_pnl_by_coin`, starting from a given
dictionary; an exception aborts the remaining fills. -/
def processTrades (d : PnlDict) : List RawTrade → Except Unit PnlDict
  | [] => .ok d
  | t :: ts =>
    match processTrade d t with
    | .ok d' => processTrades d' ts
    | .error e => .error e

/-- Model of `TradeAnalyzer.calculate_pnl_by_coin`. -/
def calculate_pnl_by_coin (trades : List RawTrade) : Except Unit PnlDict :=
  processTrades emptyDict trades

/-- Result structure of `TradeAnalyzer.calculate_winrate`. -/
structure WinRateReport where
  overall_win_rate : ℚ
  total_trades : ℕ
  winning_trades : ℕ
  losing_trades : ℕ
  win_rates_by_coin : List (String × ℚ)
deriving DecidableEq, Repr

/-- The report returned on an empty trade list. -/
def zeroReport : WinRateReport :=
  { overall_win_rate := 0, total_trades := 0, winning_trades := 0,
    losing_trades := 0, win_rates_by_coin := [] }

/-- Per-coin win rate as computed in the aggregation loop of
`calculate_winrate`. -/
def coinRate (w l : ℕ) : ℚ :=
  if 0 < w + l then ((w : ℚ) / ((w : ℚ) + (l : ℚ))) * 100 else 0

/-- Model of `TradeAnalyzer.calculate_winrate`, taking the trade list the
method reads from the database (time-ascending): empty input short-circuits
to the zero report; otherwise the per-coin states are aggregated. -/
def calculate_winrate (trades : List RawTrade) : Except Unit WinRateReport :=
  if trades = [] then .ok zeroReport
  else
    match calculate_pnl_by_coin trades with
    | .error e => .error e
    | .ok d =>
      let total_winning := (d.keys.map fun k => (d.val k).winning_trades).sum
      let total_losing := (d.keys.map fun k => (d.val k).losing_trades).sum
      let total_trades := (d.keys.map fun k =>
        (d.val k).winning_trades + (d.val k).losing_trades).sum
      let overall := if 0 < total_trades then
          ((total_winning : ℚ) / (total_trades : ℚ)) * 100
        else 0
      .ok { overall_win_rate := overall,
            total_trades := total_trades,
            winning_trades := total_winning,
            losing_trades := total_losing,
            win_rates_by_coin := d.keys.map fun k =>
              (k, coinRate (d.val k).winning_trades (d.val k).losing_trades) }

/-- Raw trade literal with all fields present and numeric. -/
def mkTrade (c s : String) (p q : ℚ) : RawTrade :=
  { coin := some c, side := some s, px := some (.num p), sz := some (.num q) }

/-- Whether the batch computation completed without raising. -/
def isOkE {α : Type} : Except Unit α → Bool
  | .ok _ => true
  | .error _ => false

/-- Resulting state of one coin after a successful batch (`initState` when
the batch raised; only meaningful together with `isOkE`). -/
def pnlAt (trades : List RawTrade) (c : String) : PosState :=
  match calculate_pnl_by_coin trades with
  | .ok d => d.val c
  | .error _ => initState

/-- Keys of the resulting dictionary after a successful batch. -/
def pnlKeys (trades : List RawTrade) : List String :=
  match calculate_pnl_by_coin trades with
  | .ok d => d.keys
  | .error _ => []

/-- Report computed by a successful `calculate_winrate` run (`zeroReport`
when the batch raised; only meaningful together with `isOkE`). -/
def winrateAt (trades : List RawTrade) : WinRateReport :=
  match calculate_winrate trades with
  | .ok r => r
  | .error _ => zeroReport

/-- One row of the `transfers` table as read by `analyze_whale_activity`:
`CAST(amount AS REAL)` is modelled by storing the numeric amount. -/
structure TransferRow where
  user_address : String
  token : String
  amount : ℚ
  time : ℚ
deriving DecidableEq, Repr

/-- One row of the `trades` table as read by `analyze_whale_activity`,
with `CAST(px AS REAL)` and `CAST(sz AS REAL)` already applied. -/
structure TradeRow where
  user_address : String
  side : String
  px : ℚ
  sz : ℚ
  time : ℚ
deriving DecidableEq, Repr

/-- Result dictionary of `analyze_whale_activity`. The wall-clock display
field `analysis_time_utc` is omitted: it is `datetime.utcnow()` formatting
with no computational content. -/
structure WhaleSignal where
  suggestion : String
  reasoning : String
  whale_definition_days : ℕ
  analysis_period_hours : ℕ
  whale_transfer_threshold_usdc : ℚ
  identified_whales_count : ℕ
  net_volume_usdc : ℚ
  buy_volume_usdc : ℚ
  sell_volume_usdc : ℚ
  identified_whales : List String
deriving DecidableEq, Repr

/-- Python 3 `round` ties-to-even on the nearest integer. -/
def roundHalfEven (q : ℚ) : ℤ :=
  if q - ⌊q⌋ < 1/2 then ⌊q⌋
  else if 1/2 < q - ⌊q⌋ then ⌊q⌋ + 1
  else if ⌊q⌋ % 2 = 0 then ⌊q⌋ else ⌊q⌋ + 1

/-- Model of Python `round(x, 2)` on exact decimal values. -/
def round2 (q : ℚ) : ℚ := (roundHalfEven (q * 100) : ℚ) / 100

/-- Constant `WHALE_DEFINITION_DAYS` of `analyze_whale_activity`. -/
def WHALE_DEFINITION_DAYS : ℕ := 30

/-- Constant `ANALYSIS_PERIOD_HOURS` of `analyze_whale_activity`. -/
def ANALYSIS_PERIOD_HOURS : ℕ := 24

/-- Constant `WHALE_TRANSFER_THRESHOLD_USDC` of `analyze_whale_activity`. -/
def WHALE_TRANSFER_THRESHOLD_USDC : ℚ := 100000

/-- Constant `NET_VOLUME_BUY_THRESHOLD_USDC` of `analyze_whale_activity`. -/
def NET_VOLUME_BUY_THRESHOLD_USDC : ℚ := 500000

/-- Constant `NET_VOLUME_SELL_THRESHOLD_USDC` of `analyze_whale_activity`. -/
def NET_VOLUME_SELL_THRESHOLD_USDC : ℚ := -500000

/-- The WHERE clause of the whale query: `token = 'USDC' AND
CAST(amount AS REAL) >= threshold AND time >= now - 30 days`. -/
def qualifyingTransfer (now_ms : ℚ) (t : TransferRow) : Bool :=
  t.token == "USDC" && decide (WHALE_TRANSFER_THRESHOLD_USDC ≤ t.amount)
    && decide (now_ms - ((WHALE_DEFINITION_DAYS : ℚ) * 86400 * 1000) ≤ t.time)

/-- SELECT DISTINCT: first occurrence of each address is kept. -/
def distinctKeys (l : List String) : List String := l.foldl insertKey []

/-- The `whale_addresses` list computed by the first query of
`analyze_whale_activity`. -/
def whale_addresses (transfers : List TransferRow) (now_ms : ℚ) : List String :=
  distinctKeys ((transfers.filter (qualifyingTransfer now_ms)).map
    (fun t => t.user_address))

/-- The `recent_trades` result set of the second query: fills of any whale
address with `time >= now - 24 hours`. -/
def recent_trades (transfers : List TransferRow) (trades : List TradeRow)
    (now_ms : ℚ) : List TradeRow :=
  trades.filter fun tr =>
    (whale_addresses transfers now_ms).contains tr.user_address
      && decide (now_ms - ((ANALYSIS_PERIOD_HOURS : ℚ) * 3600 * 1000) ≤ tr.time)

/-- `buy_volume`: sum of `price * size` over the recent whale fills with
side `'B'`. -/
def buy_volume (transfers : List TransferRow) (trades : List TradeRow)
    (now_ms : ℚ) : ℚ :=
  (((recent_trades transfers trades now_ms).filter fun tr => tr.side == "B").map
    fun tr => tr.px * tr.sz).sum

/-- `sell_volume`: sum of `price * size` over the recent whale fills with
side `'A'`. -/
def sell_volume (transfers : List TransferRow) (trades : List TradeRow)
    (now_ms : ℚ) : ℚ :=
  (((recent_trades transfers trades now_ms).filter fun tr => tr.side == "A").map
    fun tr => tr.px * tr.sz).sum

/-- `net_volume = buy_volume - sell_volume`. -/
def net_volume (transfers : List TransferRow) (trades : List TradeRow)
    (now_ms : ℚ) : ℚ :=
  buy_volume transfers trades now_ms - sell_volume transfers trades now_ms

/-- Reason string returned when no whale qualifies. -/
def NO_WHALES_REASON : String := "在定義的時間範圍內未找到符合條件的巨鯨。"

/-- Reason string of the BUY branch (the f-string with the 24-hour window
interpolated). -/
def BUY_REASON : String := "過去 24 小時內，巨鯨表現出強烈的淨買入行為。"

/-- Reason string of the SELL branch. -/
def SELL_REASON : String := "過去 24 小時內，巨鯨表現出強烈的淨賣出行為。"

/-- Reason string of the HOLD branch with whales present. -/
def HOLD_REASON : String := "過去 24 小時內，巨鯨的買賣行為相對平衡或不活躍。"

/-- Model of `analyze_whale_activity` in `main.py`, over the materialized
contents of the `transfers` and `trades` tables and the reference time
`time.time() * 1000`. -/
def analyze_whale_activity (transfers : List TransferRow)
    (trades : List TradeRow) (now_ms : ℚ) : WhaleSignal :=
  let whales := whale_addresses transfers now_ms
  if whales = [] then
    { suggestion := "HOLD", reasoning := NO_WHALES_REASON,
      whale_definition_days := WHALE_DEFINITION_DAYS,
      analysis_period_hours := ANALYSIS_PERIOD_HOURS,
      whale_transfer_threshold_usdc := WHALE_TRANSFER_THRESHOLD_USDC,
      identified_whales_count := 0, net_volume_usdc := 0,
      buy_volume_usdc := 0, sell_volume_usdc := 0, identified_whales := [] }
  else
    let bv := buy_volume transfers trades now_ms
    let sv := sell_volume transfers trades now_ms
    let nv := bv - sv
    let sr : String × String :=
      if NET_VOLUME_BUY_THRESHOLD_USDC < nv then ("BUY", BUY_REASON)
      else if nv < NET_VOLUME_SELL_THRESHOLD_USDC then ("SELL", SELL_REASON)
      else ("HOLD", HOLD_REASON)
    { suggestion := sr.1, reasoning := sr.2,
      whale_definition_days := WHALE_DEFINITION_DAYS,
      analysis_period_hours := ANALYSIS_PERIOD_HOURS,
      whale_transfer_threshold_usdc := WHALE_TRANSFER_THRESHOLD_USDC,
      identified_whales_count := whales.length,
      net_volume_usdc := round2 nv, buy_volume_usdc := round2 bv,
      sell_volume_usdc := round2 sv, identified_whales := whales }

/-- Raw BUY fill built from a coin, a price and a size. -/
def mkBuy (f : String × ℚ × ℚ) : RawTrade := mkTrade f.1 "B" f.2.1 f.2.2

/-- A raw field value is nonnegative if it parses, so the fill it belongs
to conforms to the data model's `decimal ≥ 0` for that field. -/
def nonnegV : Option PyVal → Bool
  | none => true
  | some (.num q) => decide (0 ≤ q)
  | some .bad => true

/-- A raw fill whose price and size conform to the data model
(`decimal ≥ 0` wherever they parse at all). -/
def NonnegTrade (t : RawTrade) : Bool := nonnegV t.px && nonnegV t.sz

/-- The invariant of one coin's position state: nonnegative position and
cost, and zero cost whenever the position is zero. -/
def LedgerInv (pos : PosState) : Prop :=
  0 ≤ pos.position ∧ 0 ≤ pos.total_cost ∧
    (pos.position = 0 → pos.total_cost = 0)

/-- The invariant holding for every coin of the dictionary. -/
def DictInv (d : PnlDict) : Prop := ∀ c, LedgerInv (d.val c)

/-! Unfolding lemmas for the four branches of the per-fill update. -/

lemma applyFill_buy (pos : PosState) (px sz : ℚ) :
    applyFill pos "B" px sz =
      { pos with trades_count := pos.trades_count + 1,
                 total_cost := pos.total_cost + px * sz,
                 position := pos.position + sz } := by
  simp [applyFill]

lemma applyFill_other (pos : PosState) (side : String) (px sz : ℚ)
    (hb : side ≠ "B") (ha : side ≠ "A") :
    applyFill pos side px sz =
      { pos with trades_count := pos.trades_count + 1 } := by
  simp [applyFill, hb, ha]

lemma applyFill_sell_flat (pos : PosState) (px sz : ℚ)
    (h : pos.position ≤ 0) :
    applyFill pos "A" px sz =
      { pos with trades_count := pos.trades_count + 1 } := by
  simp [applyFill, not_lt.mpr h]

lemma applyFill_sell_clamp (pos : PosState) (px sz : ℚ)
    (h : 0 < pos.position) (h2 : pos.position < sz) :
    applyFill pos "A" px sz =
      { position := 0, total_cost := 0,
        realized_pnl := pos.realized_pnl +
          (px - pos.total_cost / pos.position) * min sz pos.position,
        trades_count := pos.trades_count + 1,
        winning_trades :=
          if 0 < (px - pos.total_cost / pos.position) * min sz pos.position
          then pos.winning_trades + 1 else pos.winning_trades,
        losing_trades :=
          if (px - pos.total_cost / pos.position) * min sz pos.position < 0
          then pos.losing_trades + 1 else pos.losing_trades } := by
  simp only [applyFill]
  rw [if_pos trivial, if_pos h, if_pos (show pos.position - sz < 0 by linarith),
    if_neg (show ¬("A" : String) = "B" by decide)]

lemma applyFill_sell_matched (pos : PosState) (px sz : ℚ)
    (h : 0 < pos.position) (h2 : sz ≤ pos.position) :
    applyFill pos "A" px sz =
      { position := pos.position - sz,
        total_cost := pos.total_cost - pos.total_cost / pos.position * sz,
        realized_pnl := pos.realized_pnl +
          (px - pos.total_cost / pos.position) * sz,
        trades_count := pos.trades_count + 1,
        winning_trades :=
          if 0 < (px - pos.total_cost / pos.position) * sz
          then pos.winning_trades + 1 else pos.winning_trades,
        losing_trades :=
          if (px - pos.total_cost / pos.position) * sz < 0
          then pos.losing_trades + 1 else pos.losing_trades } := by
  simp only [applyFill]
  rw [if_pos trivial, if_pos h,
    if_neg (show ¬pos.position - sz < 0 by simp only [not_lt]; linarith),
    min_eq_left h2, if_neg (show ¬("A" : String) = "B" by decide)]

lemma processTrade_mk (d : PnlDict) (c s : String) (p q : ℚ)
    (hc : c ≠ "") (hs : s ≠ "") :
    processTrade d (mkTrade c s p q) =
      .ok { keys := insertKey d.keys c,
            val := updateF d.val c (applyFill (d.val c) s p q) } := by
  simp [processTrade, mkTrade, pyFloat, truthy, hc, hs]

lemma processTrade_badParse (d : PnlDict) (t : RawTrade)
    (h : pyFloat t.px = none ∨ pyFloat t.sz = none) :
    processTrade d t = .error () := by
  rcases h with h | h
  · cases h2 : pyFloat t.sz <;> simp [processTrade, h, h2]
  · cases h2 : pyFloat t.px <;> simp [processTrade, h, h2]

lemma processTrades_badParse : ∀ (trades : List RawTrade) (d : PnlDict),
    (∃ t ∈ trades, pyFloat t.px = none ∨ pyFloat t.sz = none) →
    processTrades d trades = .error () := by
  intro trades
  induction trades with
  | nil => intro d h; simp at h
  | cons t ts ih =>
    intro d h
    rcases h with ⟨u, hu, hbad⟩
    rcases List.mem_cons.mp hu with rfl | hmem
    · simp [processTrades, processTrade_badParse d u hbad]
    · cases hpt : processTrade d t with
      | ok d' =>
        simp only [processTrades, hpt]
        exact ih d' ⟨u, hmem, hbad⟩
      | error e => cases e; simp [processTrades, hpt]

/-- C1 (counterexample): the ledger computation does fail on an individual
fill. A fill with a present but non-numeric price makes the whole batch
raise, and a fill with a missing price is not skipped: it still increments
the coin's trade counter. -/
theorem c1_counterexample :
    calculate_pnl_by_coin
        [{ coin := some "BTC", side := some "B", px := some .bad,
           sz := some (.num 1) }] = .error () ∧
    (pnlAt [{ coin := some "BTC", side := some "B", px := none,
              sz := some (.num 2) }] "BTC").trades_count = 1 := by
  refine ⟨rfl, ?_⟩
  norm_num +decide [pnlAt, calculate_pnl_by_coin, processTrades, processTrade,
    pyFloat, truthy, applyFill, updateF, insertKey, emptyDict, initState]

/-- C1 (amended): a fill with a missing or empty instrument or side field
is skipped entirely and processing continues; a missing price or size
parses as 0 (the fill is not skipped); but a fill whose price or size is
present and non-numeric raises, failing the whole batch. -/
theorem c1_defensive_parsing_amended :
    (∀ (d : PnlDict) (t : RawTrade) (px sz : ℚ),
        pyFloat t.px = some px → pyFloat t.sz = some sz →
        (truthy t.coin = false ∨ truthy t.side = false) →
        processTrade d t = .ok d)
  ∧ pyFloat none = some 0
  ∧ (∀ trades : List RawTrade,
        (∃ t ∈ trades, pyFloat t.px = none ∨ pyFloat t.sz = none) →
        calculate_pnl_by_coin trades = .error ()) := by
  refine ⟨?_, rfl, ?_⟩
  · intro d t px sz hpx hsz hts
    rcases hts with h | h <;> simp [processTrade, hpx, hsz, h]
  · intro trades h
    exact processTrades_badParse trades emptyDict h

/-- C1 (amended, witness): a fill with a missing coin is skipped, and a
batch containing a fill with a non-numeric size raises. -/
theorem c1_defensive_parsing_amended_witness :
    processTrade emptyDict
        { coin := none, side := some "B", px := some (.num 1),
          sz := some (.num 1) } = .ok emptyDict ∧
    calculate_pnl_by_coin
        [{ coin := some "BTC", side := some "A", px := some (.num 1),
           sz := some .bad }] = .error () :=
  ⟨c1_defensive_parsing_amended.1 emptyDict _ 1 1 rfl rfl (Or.inl rfl),
   c1_defensive_parsing_amended.2.2 _
     ⟨{ coin := some "BTC", side := some "A", px := some (.num 1),
        sz := some .bad }, by simp, Or.inr rfl⟩⟩

/-- C3: buy 10 at price 10 then sell 15 at price 12 completes without
error and yields position 0, total cost 0 and realized P&L
`(12 - 10) * 10 = 20`: the oversold excess is discarded by the clamp. -/
theorem c3_oversell_clamp :
    isOkE (calculate_pnl_by_coin
        [mkTrade "BTC" "B" 10 10, mkTrade "BTC" "A" 12 15]) = true ∧
    (pnlAt [mkTrade "BTC" "B" 10 10, mkTrade "BTC" "A" 12 15] "BTC").position
        = 0 ∧
    (pnlAt [mkTrade "BTC" "B" 10 10, mkTrade "BTC" "A" 12 15] "BTC").total_cost
        = 0 ∧
    (pnlAt [mkTrade "BTC" "B" 10 10, mkTrade "BTC" "A" 12 15] "BTC").realized_pnl
        = 20 := by
  norm_num +decide [isOkE, pnlAt, calculate_pnl_by_coin, processTrades,
    processTrade, pyFloat, mkTrade, truthy, applyFill, updateF, insertKey,
    emptyDict, initState]

/-- C5: a SELL fill processed while the coin's position is `<= 0` only
increments the trade counter; position, total cost, realized P&L and the
win and loss counters are unchanged. -/
theorem c5_sell_flat_ignored (d : PnlDict) (t : RawTrade) (c : String)
    (px sz : ℚ) (hc : t.coin = some c) (hne : c ≠ "")
    (hs : t.side = some "A") (hpx : pyFloat t.px = some px)
    (hsz : pyFloat t.sz = some sz) (hpos : (d.val c).position ≤ 0) :
    processTrade d t = .ok
      { keys := insertKey d.keys c,
        val := updateF d.val c
          { d.val c with trades_count := (d.val c).trades_count + 1 } } := by
  have h1 : truthy t.coin = true := by rw [hc]; simp [truthy, hne]
  have h2 : truthy t.side = true := by rw [hs]; rfl
  simp only [processTrade, hpx, hsz, h1, h2, Bool.and_self, if_true, hc, hs,
    Option.getD_some]
  rw [applyFill_sell_flat _ _ _ hpos]
  simp [truthy, hne]

/-- C5 (witness): a SELL on a fresh coin (position 0) only counts the
trade. -/
theorem c5_sell_flat_ignored_witness :
    processTrade emptyDict (mkTrade "BTC" "A" 5 1) = .ok
      { keys := insertKey emptyDict.keys "BTC",
        val := updateF emptyDict.val "BTC"
          { emptyDict.val "BTC" with
              trades_count := (emptyDict.val "BTC").trades_count + 1 } } :=
  c5_sell_flat_ignored emptyDict _ "BTC" 5 1 rfl (by decide) rfl rfl rfl le_rfl

lemma nonnegV_parse (o : Option PyVal) (q : ℚ) (h1 : nonnegV o = true)
    (h2 : pyFloat o = some q) : 0 ≤ q := by
  cases o with
  | none =>
    simp only [pyFloat, Option.some.injEq] at h2
    subst h2; exact le_refl 0
  | some v =>
    cases v with
    | num r =>
      simp only [pyFloat, Option.some.injEq] at h2
      simp only [nonnegV, decide_eq_true_eq] at h1
      subst h2; exact h1
    | bad => simp [pyFloat] at h2

lemma applyFill_inv (pos : PosState) (side : String) (px sz : ℚ)
    (hI : LedgerInv pos) (hpx : 0 ≤ px) (hsz : 0 ≤ sz) :
    LedgerInv (applyFill pos side px sz) := by
  obtain ⟨h1, h2, h3⟩ := hI
  by_cases hb : side = "B"
  · subst hb
    rw [applyFill_buy]
    refine ⟨add_nonneg h1 hsz, add_nonneg h2 (mul_nonneg hpx hsz), ?_⟩
    intro h0
    dsimp only at h0 ⊢
    have hp0 : pos.position = 0 := by linarith
    have hs0 : sz = 0 := by linarith
    rw [h3 hp0, hs0, mul_zero, add_zero]
  · by_cases ha : side = "A"
    · subst ha
      rcases le_or_lt pos.position 0 with hp | hp
      · rw [applyFill_sell_flat _ _ _ hp]
        exact ⟨h1, h2, h3⟩
      · rcases lt_or_le pos.position sz with hover | hsz2
        · rw [applyFill_sell_clamp _ _ _ hp hover]
          exact ⟨le_refl 0, le_refl 0, fun _ => rfl⟩
        · rw [applyFill_sell_matched _ _ _ hp hsz2]
          have hppos : pos.position ≠ 0 := ne_of_gt hp
          have havg : 0 ≤ pos.total_cost / pos.position :=
            div_nonneg h2 (le_of_lt hp)
          have hkey : pos.total_cost / pos.position * sz ≤ pos.total_cost := by
            have := mul_le_mul_of_nonneg_left hsz2 havg
            rwa [div_mul_cancel₀ _ hppos] at this
          refine ⟨?_, ?_, ?_⟩ <;> dsimp only
          · linarith
          · linarith
          · intro h0
            have hszp : sz = pos.position := by linarith
            rw [hszp, div_mul_cancel₀ _ hppos, sub_self]
    · rw [applyFill_other _ _ _ _ hb ha]
      exact ⟨h1, h2, h3⟩

lemma processTrade_inv (d d' : PnlDict) (t : RawTrade)
    (ht : NonnegTrade t = true) (hd : DictInv d)
    (h : processTrade d t = .ok d') : DictInv d' := by
  rw [NonnegTrade, Bool.and_eq_true] at ht
  obtain ⟨hpx0, hsz0⟩ := ht
  cases hpx : pyFloat t.px with
  | none =>
    rw [processTrade_badParse d t (Or.inl hpx)] at h
    cases h
  | some px =>
    cases hsz : pyFloat t.sz with
    | none =>
      rw [processTrade_badParse d t (Or.inr hsz)] at h
      cases h
    | some sz =>
      simp only [processTrade, hpx, hsz] at h
      by_cases hts : (truthy t.coin && truthy t.side) = true
      · rw [if_pos hts] at h
        cases h
        intro x
        by_cases hx : x = t.coin.getD ""
        · simp only [updateF, hx, if_pos rfl]
          exact applyFill_inv _ _ _ _ (hd _) (nonnegV_parse _ _ hpx0 hpx)
            (nonnegV_parse _ _ hsz0 hsz)
        · simp only [updateF, if_neg hx]
          exact hd x
      · rw [if_neg hts] at h
        cases h
        exact hd

lemma processTrades_inv : ∀ (trades : List RawTrade) (d d' : PnlDict),
    (∀ t ∈ trades, NonnegTrade t = true) → DictInv d →
    processTrades d trades = .ok d' → DictInv d' := by
  intro trades
  induction trades with
  | nil =>
    intro d d' _ hd h
    simp only [processTrades] at h
    cases h
    exact hd
  | cons t ts ih =>
    intro d d' hAll hd h
    simp only [processTrades] at h
    cases hpt : processTrade d t with
    | ok d1 =>
      rw [hpt] at h
      exact ih d1 d' (fun u hu => hAll u (List.mem_cons_of_mem _ hu))
        (processTrade_inv d d1 t (hAll t (List.mem_cons_self _ _)) hd hpt) h
    | error e =>
      rw [hpt] at h
      cases h

/-- C2: for any prefix of a fill sequence whose numeric fields conform to
the data model (nonnegative price and size), the resulting state of every
coin has nonnegative position and total cost, and zero total cost whenever
the position is zero. -/
theorem c2_ledger_invariant (pre suf : List RawTrade)
    (h : ∀ t ∈ pre ++ suf, NonnegTrade t = true)
    (hok : isOkE (calculate_pnl_by_coin pre) = true) (coin : String) :
    0 ≤ (pnlAt pre coin).position ∧ 0 ≤ (pnlAt pre coin).total_cost ∧
      ((pnlAt pre coin).position = 0 → (pnlAt pre coin).total_cost = 0) := by
  have hpre : ∀ t ∈ pre, NonnegTrade t = true :=
    fun t ht => h t (List.mem_append_left _ ht)
  cases hres : calculate_pnl_by_coin pre with
  | error e => rw [hres] at hok; simp [isOkE] at hok
  | ok d =>
    have hinv : DictInv d := processTrades_inv pre emptyDict d hpre
      (fun c => ⟨le_refl 0, le_refl 0, fun _ => rfl⟩) hres
    have hval : pnlAt pre coin = d.val coin := by
      unfold pnlAt
      rw [hres]
    rw [hval]
    exact hinv coin

/-- C2 (witness): the invariant at the concrete one-buy sequence. -/
theorem c2_ledger_invariant_witness :
    0 ≤ (pnlAt [mkTrade "ETH" "B" 3 2] "ETH").position ∧
    0 ≤ (pnlAt [mkTrade "ETH" "B" 3 2] "ETH").total_cost ∧
    ((pnlAt [mkTrade "ETH" "B" 3 2] "ETH").position = 0 →
      (pnlAt [mkTrade "ETH" "B" 3 2] "ETH").total_cost = 0) :=
  c2_ledger_invariant [mkTrade "ETH" "B" 3 2] [] (by decide) (by decide) "ETH"

/-- C4: a full round-trip (buy size S at price P1, sell size S at price
P2) on a fresh instrument completes, realizes `(P2 - P1) * S`, and leaves
position and total cost at zero. -/
theorem c4_round_trip (S P1 P2 : ℚ) (hS : 0 < S) (hP : P2 ≠ P1) :
    isOkE (calculate_pnl_by_coin [mkTrade "X" "B" P1 S, mkTrade "X" "A" P2 S])
        = true ∧
    (pnlAt [mkTrade "X" "B" P1 S, mkTrade "X" "A" P2 S] "X").realized_pnl
        = (P2 - P1) * S ∧
    (pnlAt [mkTrade "X" "B" P1 S, mkTrade "X" "A" P2 S] "X").position = 0 ∧
    (pnlAt [mkTrade "X" "B" P1 S, mkTrade "X" "A" P2 S] "X").total_cost
        = 0 := by
  have hS0 : S ≠ 0 := ne_of_gt hS
  have step1 : applyFill initState "B" P1 S =
      { position := S, total_cost := P1 * S, realized_pnl := 0,
        trades_count := 1, winning_trades := 0, losing_trades := 0 } := by
    rw [applyFill_buy]; simp [initState]
  have step2 : applyFill
      { position := S, total_cost := P1 * S, realized_pnl := 0,
        trades_count := 1, winning_trades := 0, losing_trades := 0 }
      "A" P2 S =
      { position := 0, total_cost := 0, realized_pnl := (P2 - P1) * S,
        trades_count := 2,
        winning_trades := if 0 < (P2 - P1) * S then 1 else 0,
        losing_trades := if (P2 - P1) * S < 0 then 1 else 0 } := by
    rw [applyFill_sell_matched _ _ _ hS le_rfl]
    dsimp only
    rw [mul_div_cancel_right₀ P1 hS0]
    simp
  have hpn : pnlAt [mkTrade "X" "B" P1 S, mkTrade "X" "A" P2 S] "X" =
      applyFill (applyFill initState "B" P1 S) "A" P2 S := by
    simp only [pnlAt, calculate_pnl_by_coin, processTrades]
    rw [processTrade_mk _ _ _ _ _ (by decide) (by decide)]
    dsimp only
    rw [processTrade_mk _ _ _ _ _ (by decide) (by decide)]
    dsimp only
    simp [updateF, emptyDict]
  have hok2 : isOkE (calculate_pnl_by_coin
      [mkTrade "X" "B" P1 S, mkTrade "X" "A" P2 S]) = true := by
    simp only [isOkE, calculate_pnl_by_coin, processTrades]
    rw [processTrade_mk _ _ _ _ _ (by decide) (by decide)]
    dsimp only
    rw [processTrade_mk _ _ _ _ _ (by decide) (by decide)]
  refine ⟨hok2, ?_, ?_, ?_⟩ <;> rw [hpn, step1, step2]

/-- C4 (witness): a concrete round-trip, buy 1 at 1 then sell 1 at 2. -/
theorem c4_round_trip_witness :
    isOkE (calculate_pnl_by_coin [mkTrade "X" "B" 1 1, mkTrade "X" "A" 2 1])
        = true ∧
    (pnlAt [mkTrade "X" "B" 1 1, mkTrade "X" "A" 2 1] "X").realized_pnl
        = (2 - 1) * 1 ∧
    (pnlAt [mkTrade "X" "B" 1 1, mkTrade "X" "A" 2 1] "X").position = 0 ∧
    (pnlAt [mkTrade "X" "B" 1 1, mkTrade "X" "A" 2 1] "X").total_cost = 0 :=
  c4_round_trip 1 1 2 (by norm_num) (by norm_num)

lemma processTrades_buys : ∀ (fills : List (String × ℚ × ℚ)) (d : PnlDict),
    (∀ f ∈ fills, f.1 ≠ "") →
    ∃ d', processTrades d (fills.map mkBuy) = .ok d' ∧ ∀ c,
      (d'.val c).position = (d.val c).position +
        ((fills.filter fun f => f.1 == c).map fun f => f.2.2).sum ∧
      (d'.val c).total_cost = (d.val c).total_cost +
        ((fills.filter fun f => f.1 == c).map fun f => f.2.1 * f.2.2).sum ∧
      (d'.val c).realized_pnl = (d.val c).realized_pnl := by
  intro fills
  induction fills with
  | nil =>
    intro d _
    exact ⟨d, rfl, fun c => by simp⟩
  | cons f fs ih =>
    intro d hf
    have hne : f.1 ≠ "" := hf f (List.mem_cons_self _ _)
    set d1 : PnlDict :=
      { keys := insertKey d.keys f.1,
        val := updateF d.val f.1 (applyFill (d.val f.1) "B" f.2.1 f.2.2) }
      with hd1
    have hstep : processTrade d (mkBuy f) = .ok d1 :=
      processTrade_mk d f.1 "B" f.2.1 f.2.2 hne (by decide)
    obtain ⟨d', hrun, hprop⟩ := ih d1 (fun u hu => hf u (List.mem_cons_of_mem _ hu))
    refine ⟨d', ?_, ?_⟩
    · simpa only [List.map_cons, processTrades, hstep] using hrun
    · intro c
      obtain ⟨hp, ht, hr⟩ := hprop c
      by_cases hc : f.1 = c
      · subst hc
        have hv : d1.val f.1 = applyFill (d.val f.1) "B" f.2.1 f.2.2 := by
          rw [hd1]; simp [updateF]
        rw [hv, applyFill_buy] at hp ht hr
        dsimp only at hp ht hr
        refine ⟨?_, ?_, ?_⟩
        · rw [hp]; simp [List.filter_cons]; ring
        · rw [ht]; simp [List.filter_cons]; ring
        · rw [hr]
      · have hv : d1.val c = d.val c := by
          rw [hd1]; simp [updateF, Ne.symm hc]
        rw [hv] at hp ht hr
        have hfilter : (f :: fs).filter (fun g => g.1 == c) =
            fs.filter (fun g => g.1 == c) := by
          simp [List.filter_cons, hc]
        exact ⟨by rw [hfilter]; exact hp, by rw [hfilter]; exact ht, hr⟩

/-- C9: a fill sequence of BUY fills only (well-formed coins, numeric
fields) never errors, realizes no P&L on any coin, and leaves every coin
with position equal to the sum of its fill sizes and total cost equal to
the sum of `price * size` over its fills. -/
theorem c9_buy_only (fills : List (String × ℚ × ℚ))
    (h : ∀ f ∈ fills, f.1 ≠ "") (c : String) :
    isOkE (calculate_pnl_by_coin (fills.map mkBuy)) = true ∧
    (pnlAt (fills.map mkBuy) c).realized_pnl = 0 ∧
    (pnlAt (fills.map mkBuy) c).position =
      ((fills.filter fun f => f.1 == c).map fun f => f.2.2).sum ∧
    (pnlAt (fills.map mkBuy) c).total_cost =
      ((fills.filter fun f => f.1 == c).map fun f => f.2.1 * f.2.2).sum := by
  obtain ⟨d', hrun, hprop⟩ := processTrades_buys fills emptyDict h
  obtain ⟨hp, ht, hr⟩ := hprop c
  have hcalc : calculate_pnl_by_coin (fills.map mkBuy) = .ok d' := hrun
  have hpn : pnlAt (fills.map mkBuy) c = d'.val c := by
    unfold pnlAt; rw [hcalc]
  refine ⟨by rw [hcalc]; rfl, ?_, ?_, ?_⟩
  · rw [hpn, hr]; rfl
  · rw [hpn, hp]; simp [emptyDict, initState]
  · rw [hpn, ht]; simp [emptyDict, initState]

/-- C9 (witness): a single BUY of 3 units at price 2. -/
theorem c9_buy_only_witness :
    isOkE (calculate_pnl_by_coin
      ([(("BTC" : String), (2 : ℚ), (3 : ℚ))].map mkBuy)) = true ∧
    (pnlAt ([(("BTC" : String), (2 : ℚ), (3 : ℚ))].map mkBuy) "BTC").realized_pnl
      = 0 ∧
    (pnlAt ([(("BTC" : String), (2 : ℚ), (3 : ℚ))].map mkBuy) "BTC").position =
      (([(("BTC" : String), (2 : ℚ), (3 : ℚ))].filter
        fun f => f.1 == "BTC").map fun f => f.2.2).sum ∧
    (pnlAt ([(("BTC" : String), (2 : ℚ), (3 : ℚ))].map mkBuy) "BTC").total_cost =
      (([(("BTC" : String), (2 : ℚ), (3 : ℚ))].filter
        fun f => f.1 == "BTC").map fun f => f.2.1 * f.2.2).sum :=
  c9_buy_only [("BTC", 2, 3)] (by decide) "BTC"

lemma sum_map_add_nat (ks : List String) (f g : String → ℕ) :
    (ks.map fun k => f k + g k).sum = (ks.map f).sum + (ks.map g).sum := by
  induction ks with
  | nil => rfl
  | cons k ks ih => simp [List.map_cons, List.sum_cons, ih]; omega

/-- C8: the empty fill sequence yields the all-zero report, and on any
successful run the per-coin win rates are `winCount / (winCount +
lossCount) * 100` (0 on zero denominator) while the overall rate applies
the same formula to the win and loss counts summed over all coins. -/
theorem c8_winrate_derivation :
    calculate_winrate [] = .ok
      { overall_win_rate := 0, total_trades := 0, winning_trades := 0,
        losing_trades := 0, win_rates_by_coin := [] } ∧
    ∀ trades : List RawTrade, isOkE (calculate_winrate trades) = true →
      (winrateAt trades).win_rates_by_coin =
        (pnlKeys trades).map (fun k =>
          (k, if 0 < (pnlAt trades k).winning_trades +
                  (pnlAt trades k).losing_trades
              then ((pnlAt trades k).winning_trades : ℚ) /
                (((pnlAt trades k).winning_trades : ℚ) +
                  ((pnlAt trades k).losing_trades : ℚ)) * 100
              else 0)) ∧
      (winrateAt trades).winning_trades =
        ((pnlKeys trades).map fun k => (pnlAt trades k).winning_trades).sum ∧
      (winrateAt trades).losing_trades =
        ((pnlKeys trades).map fun k => (pnlAt trades k).losing_trades).sum ∧
      (winrateAt trades).overall_win_rate =
        (if 0 < (winrateAt trades).winning_trades +
            (winrateAt trades).losing_trades
         then ((winrateAt trades).winning_trades : ℚ) /
           (((winrateAt trades).winning_trades : ℚ) +
             ((winrateAt trades).losing_trades : ℚ)) * 100
         else 0) := by
  constructor
  · rfl
  · intro trades hok
    by_cases he : trades = []
    · subst he
      exact ⟨rfl, rfl, rfl, rfl⟩
    · cases hres : calculate_pnl_by_coin trades with
      | error e =>
        exfalso
        have hbad : calculate_winrate trades = .error e := by
          unfold calculate_winrate
          rw [if_neg he, hres]
        rw [hbad] at hok
        simp [isOkE] at hok
      | ok d =>
        have hwr : winrateAt trades =
            { overall_win_rate :=
                if 0 < (d.keys.map fun k =>
                    (d.val k).winning_trades + (d.val k).losing_trades).sum
                then (((d.keys.map fun k =>
                    (d.val k).winning_trades).sum : ℕ) : ℚ) /
                  ((((d.keys.map fun k => (d.val k).winning_trades +
                    (d.val k).losing_trades).sum : ℕ)) : ℚ) * 100
                else 0,
              total_trades := (d.keys.map fun k =>
                (d.val k).winning_trades + (d.val k).losing_trades).sum,
              winning_trades := (d.keys.map fun k =>
                (d.val k).winning_trades).sum,
              losing_trades := (d.keys.map fun k =>
                (d.val k).losing_trades).sum,
              win_rates_by_coin := d.keys.map fun k =>
                (k, coinRate (d.val k).winning_trades
                  (d.val k).losing_trades) } := by
          unfold winrateAt calculate_winrate
          rw [if_neg he, hres]
        have hkeys : pnlKeys trades = d.keys := by
          unfold pnlKeys; rw [hres]
        have hat : ∀ k, pnlAt trades k = d.val k := by
          intro k; unfold pnlAt; rw [hres]
        refine ⟨?_, ?_, ?_, ?_⟩
        · rw [hwr, hkeys]
          simp only [hat, coinRate]
        · rw [hwr, hkeys]
          simp only [hat]
        · rw [hwr, hkeys]
          simp only [hat]
        · rw [hwr]
          dsimp only
          rw [sum_map_add_nat]
          push_cast
          rfl

/-- C8 (witness): the derivation at a concrete one-coin run with one
winning sell. -/
theorem c8_winrate_derivation_witness :
    calculate_winrate [] = .ok
      { overall_win_rate := 0, total_trades := 0, winning_trades := 0,
        losing_trades := 0, win_rates_by_coin := [] } ∧
    (winrateAt [mkTrade "BTC" "B" 10 10]).win_rates_by_coin =
      (pnlKeys [mkTrade "BTC" "B" 10 10]).map (fun k =>
        (k, if 0 < (pnlAt [mkTrade "BTC" "B" 10 10] k).winning_trades +
                (pnlAt [mkTrade "BTC" "B" 10 10] k).losing_trades
            then ((pnlAt [mkTrade "BTC" "B" 10 10] k).winning_trades : ℚ) /
              (((pnlAt [mkTrade "BTC" "B" 10 10] k).winning_trades : ℚ) +
                ((pnlAt [mkTrade "BTC" "B" 10 10] k).losing_trades : ℚ)) * 100
            else 0)) :=
  ⟨c8_winrate_derivation.1,
   (c8_winrate_derivation.2 [mkTrade "BTC" "B" 10 10] (by rfl)).1⟩

/-- C10: the report's `total_trades` equals `winning_trades +
losing_trades`, and one fill changes `winning + losing` by exactly one
when it is a sell against a positive position whose realized P&L is
nonzero, and by zero otherwise (buys, ignored sells, zero-P&L sells). -/
theorem c10_total_trades :
    (∀ trades : List RawTrade, isOkE (calculate_winrate trades) = true →
      (winrateAt trades).total_trades =
        (winrateAt trades).winning_trades + (winrateAt trades).losing_trades) ∧
    (∀ (pos : PosState) (side : String) (px sz : ℚ),
      (applyFill pos side px sz).winning_trades +
          (applyFill pos side px sz).losing_trades =
        pos.winning_trades + pos.losing_trades +
          (if side = "A" ∧ 0 < pos.position ∧
              (px - pos.total_cost / pos.position) * min sz pos.position ≠ 0
           then 1 else 0)) := by
  constructor
  · intro trades hok
    by_cases he : trades = []
    · subst he; rfl
    · cases hres : calculate_pnl_by_coin trades with
      | error e =>
        exfalso
        have hbad : calculate_winrate trades = .error e := by
          unfold calculate_winrate
          rw [if_neg he, hres]
        rw [hbad] at hok
        simp [isOkE] at hok
      | ok d =>
        have hwr : (winrateAt trades).total_trades =
            (d.keys.map fun k =>
              (d.val k).winning_trades + (d.val k).losing_trades).sum ∧
            (winrateAt trades).winning_trades =
              (d.keys.map fun k => (d.val k).winning_trades).sum ∧
            (winrateAt trades).losing_trades =
              (d.keys.map fun k => (d.val k).losing_trades).sum := by
          unfold winrateAt calculate_winrate
          rw [if_neg he, hres]
          exact ⟨rfl, rfl, rfl⟩
        rw [hwr.1, hwr.2.1, hwr.2.2, sum_map_add_nat]
  · intro pos side px sz
    by_cases hb : side = "B"
    · subst hb
      rw [applyFill_buy]
      simp
    · by_cases ha : side = "A"
      · subst ha
        rcases le_or_lt pos.position 0 with hp | hp
        · rw [applyFill_sell_flat _ _ _ hp]
          simp [not_lt.mpr hp]
        · rcases lt_or_le pos.position sz with hover | hle
          · rw [applyFill_sell_clamp _ _ _ hp hover]
            dsimp only
            rcases lt_trichotomy
                ((px - pos.total_cost / pos.position) * min sz pos.position) 0
              with hneg | hzero | hposl
            · rw [if_neg (lt_asymm hneg), if_pos hneg,
                if_pos ⟨rfl, hp, ne_of_lt hneg⟩]
              omega
            · rw [hzero]; simp
            · rw [if_pos hposl, if_neg (lt_asymm hposl),
                if_pos ⟨rfl, hp, ne_of_gt hposl⟩]
              omega
          · rw [applyFill_sell_matched _ _ _ hp hle]
            dsimp only
            rw [min_eq_left hle]
            rcases lt_trichotomy ((px - pos.total_cost / pos.position) * sz) 0
              with hneg | hzero | hposl
            · rw [if_neg (lt_asymm hneg), if_pos hneg,
                if_pos ⟨rfl, hp, ne_of_lt hneg⟩]
              omega
            · rw [hzero]; simp
            · rw [if_pos hposl, if_neg (lt_asymm hposl),
                if_pos ⟨rfl, hp, ne_of_gt hposl⟩]
              omega
      · rw [applyFill_other _ _ _ _ hb ha]
        simp [ha]

/-- C10 (witness): the identity on the empty report and the step rule on
a concrete BUY fill. -/
theorem c10_total_trades_witness :
    (winrateAt []).total_trades =
      (winrateAt []).winning_trades + (winrateAt []).losing_trades ∧
    (applyFill initState "B" 1 1).winning_trades +
        (applyFill initState "B" 1 1).losing_trades =
      initState.winning_trades + initState.losing_trades +
        (if ("B" : String) = "A" ∧ 0 < initState.position ∧
            (1 - initState.total_cost / initState.position) *
              min 1 initState.position ≠ 0
         then 1 else 0) :=
  ⟨c10_total_trades.1 [] rfl, c10_total_trades.2 initState "B" 1 1⟩

/-- C6: with at least one identified whale, the suggestion is BUY exactly
when the net volume exceeds +500000, SELL exactly when it is below
-500000, and HOLD exactly when it lies between the thresholds. -/
theorem c6_whale_decision (transfers : List TransferRow)
    (trades : List TradeRow) (now_ms : ℚ)
    (h : whale_addresses transfers now_ms ≠ []) :
    ((analyze_whale_activity transfers trades now_ms).suggestion = "BUY" ↔
      500000 < net_volume transfers trades now_ms) ∧
    ((analyze_whale_activity transfers trades now_ms).suggestion = "SELL" ↔
      net_volume transfers trades now_ms < -500000) ∧
    ((analyze_whale_activity transfers trades now_ms).suggestion = "HOLD" ↔
      (-500000 ≤ net_volume transfers trades now_ms ∧
        net_volume transfers trades now_ms ≤ 500000)) := by
  simp only [analyze_whale_activity, net_volume,
    NET_VOLUME_BUY_THRESHOLD_USDC, NET_VOLUME_SELL_THRESHOLD_USDC]
  rw [if_neg h]
  dsimp only
  split_ifs with h1 h2
  · exact ⟨iff_of_true rfl h1,
      iff_of_false (by decide) (by linarith),
      iff_of_false (by decide) (by rintro ⟨-, hx⟩; linarith)⟩
  · exact ⟨iff_of_false (by decide) h1,
      iff_of_true rfl h2,
      iff_of_false (by decide) (by rintro ⟨hx, -⟩; linarith)⟩
  · exact ⟨iff_of_false (by decide) h1,
      iff_of_false (by decide) h2,
      iff_of_true rfl ⟨le_of_not_lt h2, le_of_not_lt h1⟩⟩

/-- C6 (witness): the spec's end-to-end scenario. One qualifying
150000-USDC transfer; fills BUY 12 BTC at 60000 and SELL 2 BTC at 65000
give net volume 590000 and suggestion BUY, while BUY 10 BTC at 60000
gives net volume 470000 and suggestion HOLD. -/
theorem c6_whale_decision_witness :
    (analyze_whale_activity [⟨"A", "USDC", 150000, 2592000000⟩]
      [⟨"A", "B", 60000, 12, 2592000000⟩, ⟨"A", "A", 65000, 2, 2592000000⟩]
      2592000000).suggestion = "BUY" ∧
    (analyze_whale_activity [⟨"A", "USDC", 150000, 2592000000⟩]
      [⟨"A", "B", 60000, 10, 2592000000⟩, ⟨"A", "A", 65000, 2, 2592000000⟩]
      2592000000).suggestion = "HOLD" := by
  have hwh : whale_addresses [⟨"A", "USDC", 150000, 2592000000⟩] 2592000000
      = ["A"] := by
    norm_num [whale_addresses, distinctKeys, qualifyingTransfer, insertKey,
      WHALE_TRANSFER_THRESHOLD_USDC, WHALE_DEFINITION_DAYS,
      List.filter_cons, List.foldl]
  constructor
  · refine (c6_whale_decision _ _ _ (by rw [hwh]; exact (by decide))).1.mpr ?_
    norm_num +decide [net_volume, buy_volume, sell_volume, recent_trades, hwh,
      ANALYSIS_PERIOD_HOURS, List.filter_cons, List.contains]
  · refine (c6_whale_decision _ _ _ (by rw [hwh]; exact (by decide))).2.2.mpr ?_
    constructor <;>
    norm_num +decide [net_volume, buy_volume, sell_volume, recent_trades, hwh,
      ANALYSIS_PERIOD_HOURS, List.filter_cons, List.contains]

/-- C7: when no transfer satisfies the whale query (USDC, amount at least
100000, inside the 30-day window), the detector returns the HOLD record
with zero whale count and zero volumes and the explanatory no-whales
reason, and the result does not depend on the fills at all. -/
theorem c7_no_whales_hold (transfers : List TransferRow)
    (trades : List TradeRow) (now_ms : ℚ)
    (h : ∀ t ∈ transfers, qualifyingTransfer now_ms t = false) :
    analyze_whale_activity transfers trades now_ms =
      { suggestion := "HOLD", reasoning := NO_WHALES_REASON,
        whale_definition_days := 30, analysis_period_hours := 24,
        whale_transfer_threshold_usdc := 100000,
        identified_whales_count := 0, net_volume_usdc := 0,
        buy_volume_usdc := 0, sell_volume_usdc := 0,
        identified_whales := [] } ∧
    NO_WHALES_REASON ≠ "" ∧
    analyze_whale_activity transfers trades now_ms =
      analyze_whale_activity transfers [] now_ms := by
  have hfil : transfers.filter (qualifyingTransfer now_ms) = [] :=
    List.filter_eq_nil_iff.mpr (fun a ha => by rw [h a ha]; simp)
  have hempty : whale_addresses transfers now_ms = [] := by
    unfold whale_addresses
    rw [hfil]
    rfl
  have hmain : ∀ fills : List TradeRow,
      analyze_whale_activity transfers fills now_ms =
      { suggestion := "HOLD", reasoning := NO_WHALES_REASON,
        whale_definition_days := 30, analysis_period_hours := 24,
        whale_transfer_threshold_usdc := 100000,
        identified_whales_count := 0, net_volume_usdc := 0,
        buy_volume_usdc := 0, sell_volume_usdc := 0,
        identified_whales := [] } := by
    intro fills
    simp only [analyze_whale_activity]
    rw [if_pos hempty]
    rfl
  exact ⟨hmain trades, by decide, by rw [hmain trades, hmain []]⟩

/-- C7 (witness): a below-threshold transfer qualifies nobody; the
detector holds with zero volumes regardless of the one fill present. -/
theorem c7_no_whales_hold_witness :
    analyze_whale_activity [⟨"A", "USDC", 50000, 2592000000⟩]
        [⟨"A", "B", 60000, 1, 2592000000⟩] 2592000000 =
      { suggestion := "HOLD", reasoning := NO_WHALES_REASON,
        whale_definition_days := 30, analysis_period_hours := 24,
        whale_transfer_threshold_usdc := 100000,
        identified_whales_count := 0, net_volume_usdc := 0,
        buy_volume_usdc := 0, sell_volume_usdc := 0,
        identified_whales := [] } ∧
    NO_WHALES_REASON ≠ "" ∧
    analyze_whale_activity [⟨"A", "USDC", 50000, 2592000000⟩]
        [⟨"A", "B", 60000, 1, 2592000000⟩] 2592000000 =
      analyze_whale_activity [⟨"A", "USDC", 50000, 2592000000⟩] []
        2592000000 :=
  c7_no_whales_hold _ _ _ (by
    intro t ht
    simp only [List.mem_singleton] at ht
    subst ht
    norm_num [qualifyingTransfer, WHALE_TRANSFER_THRESHOLD_USDC])
